import Mathlib

set_option autoImplicit false

namespace ReverseProxy

/-!
Shallow embedding of the Reverse-Proxy-Project traffic-routing core:
the backend/server-pool data model, round-robin and weighted
round-robin selection, health-check probing, sticky-session
management and the proxy handler's forwarding/failover flow.

Go `uint64` values are modelled as `Nat` reduced modulo `2 ^ 64` at
each operation that wraps; Go maps are modelled as association lists
whose insertion removes the shadowed key, so keys stay distinct.
-/

/-- Width bound of Go's `uint64`: the shared round-robin cursor
(`ServerPool.Current`) wraps modulo this value under
`atomic.AddUint64`. -/
def U64 : Nat := 2 ^ 64

/-- `models.Backend`: full URL string (`URL.String()`), the URL's
configured path component (`URL.Path`), liveness flag, weight and the
live-connection counter (`int64`).  The field `id` models the stable
identifier read by `Backend.GetID` and `weight` the value read by
`Backend.GetWeight`; both accessors live in the models file that is
not part of the sources here, so they are modelled from the spec
("stable identifier", "weight: integer ≥ 0"). -/
structure Backend where
  id : Nat
  url : String
  path : String
  alive : Bool
  weight : Nat
  currentConnections : Int
deriving Repr, DecidableEq

/-- `models.ServerPool`: the ordered backend sequence plus the shared
round-robin cursor `Current`. -/
structure ServerPool where
  backends : List Backend
  current : Nat
deriving Repr, DecidableEq

/-- `ServerPool.AddBackend`: append to the backend sequence. -/
def ServerPool.addBackend (sp : ServerPool) (b : Backend) : ServerPool :=
  { sp with backends := sp.backends ++ [b] }

/-- Loop body of `ServerPool.RemoveBackend`: drop the first backend
whose `URL.String()` equals the target, reporting whether one was
removed. -/
def removeFirstByURL : List Backend → String → List Backend × Bool
  | [], _ => ([], false)
  | b :: rest, target =>
    if b.url = target then (rest, true)
    else
      let r := removeFirstByURL rest target
      (b :: r.1, r.2)

/-- `ServerPool.RemoveBackend`. -/
def ServerPool.removeBackend (sp : ServerPool) (target : String) : ServerPool × Bool :=
  let r := removeFirstByURL sp.backends target
  ({ sp with backends := r.1 }, r.2)

/-- `ServerPool.GetBackendByURL`: first backend with the given URL
string, or absent. -/
def getBackendByURL : List Backend → String → Option Backend
  | [], _ => none
  | b :: rest, target =>
    if b.url = target then some b else getBackendByURL rest target

/-- `Backend.SetAlive` applied through the pointer returned by
`GetBackendByURL`: update the liveness flag of the first backend
matching the URL, leaving the list unchanged when there is none. -/
def setAliveByURL : List Backend → String → Bool → List Backend
  | [], _, _ => []
  | b :: rest, target, al =>
    if b.url = target then { b with alive := al } :: rest
    else b :: setAliveByURL rest target al

/-- `RoundRobinBalancer.SetBackendStatus`: look the backend up by URL
and set its liveness; an unparsable or unknown URL leaves the pool
unchanged (which `setAliveByURL` already does on no match). -/
def setBackendStatus (sp : ServerPool) (target : String) (al : Bool) : ServerPool :=
  { sp with backends := setAliveByURL sp.backends target al }

/-- The `uint64` subtraction `currentIndex - 1` as Go computes it
(wrapping at zero). -/
def u64pred (x : Nat) : Nat := (x + (U64 - 1)) % U64

/-- Selection loop of `RoundRobinBalancer.GetNextValidPeer`: up to
`fuel` attempts; each attempt atomically advances the cursor
(`atomic.AddUint64(&rr.pool.Current, 1)`), examines the backend at
index `(currentIndex - 1) % totalBackends` and returns it when it is
alive. -/
def rrLoop (bs : List Backend) (cur : Nat) : Nat → Option Backend × Nat
  | 0 => (none, cur)
  | fuel + 1 =>
    let cur1 := (cur + 1) % U64
    let idx := u64pred cur1 % bs.length
    match bs[idx]? with
    | none => (none, cur1)
    | some b => if b.alive then (some b, cur1) else rrLoop bs cur1 fuel

/-- `RoundRobinBalancer.GetNextValidPeer`: an empty snapshot yields
absent; otherwise at most `N` cursor-advancing attempts, `N` the
snapshot length. -/
def getNextValidPeer (sp : ServerPool) : Option Backend × ServerPool :=
  if sp.backends.isEmpty then (none, sp)
  else
    let r := rrLoop sp.backends sp.current sp.backends.length
    (r.1, { sp with current := r.2 })

theorem u64pred_succ (cur : Nat) : u64pred ((cur + 1) % U64) = cur % U64 := by
  have h64 : 0 < U64 := by decide
  unfold u64pred
  rw [Nat.mod_add_mod]
  have h : cur + 1 + (U64 - 1) = cur + U64 := by omega
  rw [h, Nat.add_mod_right]

theorem rrLoop_some (bs : List Backend) :
    ∀ (fuel cur : Nat) (b : Backend), (rrLoop bs cur fuel).1 = some b →
      ∃ k, k < fuel ∧ bs[((cur + k) % U64) % bs.length]? = some b ∧ b.alive = true ∧
        ∀ j, j < k → ∀ c, bs[((cur + j) % U64) % bs.length]? = some c → c.alive = false := by
  intro fuel
  induction fuel with
  | zero => intro cur b h; simp [rrLoop] at h
  | succ n ih =>
    intro cur b h
    rw [rrLoop] at h
    simp only [u64pred_succ] at h
    rcases hget : bs[(cur % U64) % bs.length]? with _ | b0
    · rw [hget] at h; simp at h
    · rw [hget] at h
      by_cases hal : b0.alive
      · simp [hal] at h
        refine ⟨0, by omega, ?_, ?_, ?_⟩
        · simpa [h] using hget
        · subst h; exact hal
        · intro j hj; omega
      · simp [hal] at h
        obtain ⟨k, hk, hidx, halive, hprev⟩ := ih ((cur + 1) % U64) b h
        refine ⟨k + 1, by omega, ?_, halive, ?_⟩
        · have : ((cur + 1) % U64 + k) % U64 = (cur + (k + 1)) % U64 := by
            rw [Nat.mod_add_mod]; ring_nf
          rwa [this] at hidx
        · intro j hj c hc
          match j with
          | 0 =>
            rw [Nat.add_zero] at hc
            rw [hget] at hc
            cases hc
            simpa using hal
          | j + 1 =>
            have hj2 : j < k := by omega
            have : ((cur + 1) % U64 + j) % U64 = (cur + (j + 1)) % U64 := by
              rw [Nat.mod_add_mod]; ring_nf
            exact hprev j hj2 c (by rwa [this])

theorem rrLoop_none (bs : List Backend) :
    ∀ (fuel cur : Nat),
      (∀ k, k < fuel → ∀ c, bs[((cur + k) % U64) % bs.length]? = some c → c.alive = false) →
      (rrLoop bs cur fuel).1 = none := by
  intro fuel
  induction fuel with
  | zero => intro cur _; simp [rrLoop]
  | succ n ih =>
    intro cur hdead
    rw [rrLoop]
    simp only [u64pred_succ]
    rcases hget : bs[(cur % U64) % bs.length]? with _ | b0
    · simp
    · have h0 : b0.alive = false := by
        refine hdead 0 (by omega) b0 ?_
        simpa using hget
      simp [h0]
      refine ih ((cur + 1) % U64) ?_
      intro k hk c hc
      have : ((cur + 1) % U64 + k) % U64 = (cur + (k + 1)) % U64 := by
        rw [Nat.mod_add_mod]; ring_nf
      rw [this] at hc
      exact hdead (k + 1) (by omega) c hc

/-- C1.  `RoundRobinBalancer.GetNextValidPeer` returns absent on an
empty snapshot; any returned backend is alive at the moment of the
check and is the first alive backend in the cursor's examination
order, the backend examined at attempt `k` being the one at index
`((current + k) mod 2^64) mod N`; and when every examined backend is
dead the call returns absent after the `N` attempts. -/
theorem rr_getNextValidPeer_spec (sp : ServerPool) :
    (sp.backends = [] → (getNextValidPeer sp).1 = none) ∧
    (∀ b, (getNextValidPeer sp).1 = some b → b.alive = true) ∧
    (∀ b, (getNextValidPeer sp).1 = some b →
      ∃ k, k < sp.backends.length ∧
        sp.backends[((sp.current + k) % U64) % sp.backends.length]? = some b ∧
        ∀ j, j < k → ∀ c,
          sp.backends[((sp.current + j) % U64) % sp.backends.length]? = some c →
            c.alive = false) ∧
    ((∀ k, k < sp.backends.length → ∀ c,
        sp.backends[((sp.current + k) % U64) % sp.backends.length]? = some c →
          c.alive = false) →
      (getNextValidPeer sp).1 = none) := by
  refine ⟨?_, ?_, ?_, ?_⟩
  · intro h; simp [getNextValidPeer, h]
  · intro b hb
    unfold getNextValidPeer at hb
    by_cases hemp : sp.backends.isEmpty
    · simp [hemp] at hb
    · simp [hemp] at hb
      obtain ⟨_, _, _, hal, _⟩ := rrLoop_some sp.backends sp.backends.length sp.current b hb
      exact hal
  · intro b hb
    unfold getNextValidPeer at hb
    by_cases hemp : sp.backends.isEmpty
    · simp [hemp] at hb
    · simp [hemp] at hb
      obtain ⟨k, hk, hidx, _, hprev⟩ := rrLoop_some sp.backends sp.backends.length sp.current b hb
      exact ⟨k, hk, hidx, hprev⟩
  · intro hdead
    unfold getNextValidPeer
    by_cases hemp : sp.backends.isEmpty
    · simp [hemp]
    · simp [hemp]
      exact rrLoop_none sp.backends sp.backends.length sp.current hdead

def rrDemoDead : Backend :=
  { id := 0, url := "http://localhost:8082", path := "", alive := false,
    weight := 1, currentConnections := 0 }

def rrDemoAlive : Backend :=
  { id := 1, url := "http://localhost:8083", path := "", alive := true,
    weight := 1, currentConnections := 0 }

def rrDemoPool : ServerPool := { backends := [rrDemoDead, rrDemoAlive], current := 0 }

theorem rr_getNextValidPeer_spec_witness : rrDemoAlive.alive = true :=
  (rr_getNextValidPeer_spec rrDemoPool).2.1 rrDemoAlive (by decide)

/-- Sequence of results of `n` successive `GetNextValidPeer` calls,
each call carrying the cursor update forward. -/
def rrCalls : ServerPool → Nat → List (Option Backend)
  | _, 0 => []
  | sp, n + 1 =>
    (getNextValidPeer sp).1 :: rrCalls (getNextValidPeer sp).2 n

theorem getNextValidPeer_all_alive (sp : ServerPool)
    (hne : sp.backends ≠ []) (halive : ∀ b ∈ sp.backends, b.alive = true)
    (hcur : sp.current < U64) :
    getNextValidPeer sp =
      (sp.backends[sp.current % sp.backends.length]?,
       { sp with current := (sp.current + 1) % U64 }) := by
  have hemp : sp.backends.isEmpty = false := by
    cases h : sp.backends with
    | nil => exact absurd h hne
    | cons a l => simp [h]
  have hlenpos : 0 < sp.backends.length := by
    cases h : sp.backends with
    | nil => exact absurd h hne
    | cons a l => simp [h]
  have hidxlt : sp.current % sp.backends.length < sp.backends.length :=
    Nat.mod_lt _ hlenpos
  obtain ⟨b, hb⟩ : ∃ b, sp.backends[sp.current % sp.backends.length]? = some b := by
    rcases h : sp.backends[sp.current % sp.backends.length]? with _ | c
    · rw [List.getElem?_eq_none_iff] at h; omega
    · exact ⟨c, rfl⟩
  have hmem : b ∈ sp.backends := by
    rw [List.getElem?_eq_some_iff] at hb
    obtain ⟨hlt, hget⟩ := hb
    exact hget ▸ List.getElem_mem hlt
  have hstep : rrLoop sp.backends sp.current (sp.backends.length - 1 + 1) =
      (some b, (sp.current + 1) % U64) := by
    rw [rrLoop]
    simp only [u64pred_succ, Nat.mod_eq_of_lt hcur]
    rw [hb]
    simp [halive b hmem]
  have hlen : sp.backends.length - 1 + 1 = sp.backends.length := by omega
  rw [hlen] at hstep
  unfold getNextValidPeer
  rw [hemp]
  simp only [Bool.false_eq_true, if_false]
  rw [hstep, hb]

theorem rrCalls_all_alive (bs : List Backend)
    (hne : bs ≠ []) (halive : ∀ b ∈ bs, b.alive = true) :
    ∀ (m cur : Nat), cur + m ≤ U64 →
      rrCalls { backends := bs, current := cur } m =
        (List.range m).map (fun i => bs[(cur + i) % bs.length]?) := by
  intro m
  induction m with
  | zero => intro cur _; simp [rrCalls]
  | succ n ih =>
    intro cur hwrap
    have hcur : cur < U64 := by omega
    rw [rrCalls]
    rw [getNextValidPeer_all_alive ⟨bs, cur⟩ hne halive hcur]
    dsimp only
    rw [List.range_succ_eq_map]
    simp only [List.map_cons, List.map_map, Nat.add_zero]
    congr 1
    rcases Nat.lt_or_ge (cur + 1) U64 with hlt | hge
    · rw [Nat.mod_eq_of_lt hlt]
      rw [ih (cur + 1) (by omega)]
      apply List.map_congr_left
      intro i _
      simp only [Function.comp]
      have h : cur + 1 + i = cur + Nat.succ i := by omega
      rw [h]
    · have hn0 : n = 0 := by omega
      subst hn0
      simp [rrCalls]

def rrCexA : Backend :=
  { id := 0, url := "http://localhost:8082", path := "", alive := true,
    weight := 1, currentConnections := 0 }

def rrCexB : Backend :=
  { id := 1, url := "http://localhost:8083", path := "", alive := true,
    weight := 1, currentConnections := 0 }

def rrCexC : Backend :=
  { id := 2, url := "http://localhost:8084", path := "", alive := true,
    weight := 1, currentConnections := 0 }

/-- Pool of three alive backends whose shared `uint64` cursor is about
to wrap around. -/
def rrCexPool : ServerPool :=
  { backends := [rrCexA, rrCexB, rrCexC], current := U64 - 1 }

/-- C2 counterexample.  With three alive backends and the shared
`uint64` cursor at `2^64 - 1`, three successive calls return the
first backend twice and never the third: the cursor wrap-around
breaks the one-sweep cyclic coverage, so the claim as stated (for
every pool, N successive calls return each backend exactly once) is
false. -/
theorem rr_cyclic_counterexample :
    rrCalls rrCexPool 3 = [some rrCexA, some rrCexA, some rrCexB] ∧
    rrCexA ≠ rrCexB ∧ rrCexA ≠ rrCexC ∧ rrCexB ≠ rrCexC := by
  refine ⟨?_, by decide, by decide, by decide⟩
  decide

/-- C2 amended.  Provided the shared 64-bit cursor does not wrap
during the sweep (`current + N ≤ 2^64`), `N` successive calls on a
pool of `N` alive backends select the indices
`current % N, (current+1) % N, …`, which are pairwise distinct and
cover every index below `N`: each backend is returned exactly once,
in cursor order, before any repeats. -/
theorem rr_cyclic_coverage (sp : ServerPool) (N : Nat)
    (hN : sp.backends.length = N) (hpos : 0 < N)
    (halive : ∀ b ∈ sp.backends, b.alive = true)
    (hwrap : sp.current + N ≤ U64) :
    rrCalls sp N = (List.range N).map (fun i => sp.backends[(sp.current + i) % N]?) ∧
    (∀ i j, i < N → j < N →
      (sp.current + i) % N = (sp.current + j) % N → i = j) ∧
    (∀ j, j < N → ∃ i, i < N ∧ (sp.current + i) % N = j) := by
  have hne : sp.backends ≠ [] := by
    intro h; rw [h] at hN; simp at hN; omega
  refine ⟨?_, ?_, ?_⟩
  · have := rrCalls_all_alive sp.backends hne halive N sp.current hwrap
    rw [hN] at this
    simpa using this
  · intro i j hi hj hmod
    have h1 : (sp.current + i) % N = (sp.current + j) % N := hmod
    have hij : i % N = j % N := Nat.ModEq.add_left_cancel' sp.current h1
    rwa [Nat.mod_eq_of_lt hi, Nat.mod_eq_of_lt hj] at hij
  · intro j hj
    have hc : sp.current % N < N := Nat.mod_lt _ hpos
    refine ⟨(j + N - sp.current % N) % N, Nat.mod_lt _ hpos, ?_⟩
    rw [Nat.add_mod_mod, ← Nat.mod_add_mod]
    have hx : sp.current % N + (j + N - sp.current % N) = j + N := by omega
    rw [hx, Nat.add_mod_right, Nat.mod_eq_of_lt hj]

def rrWitPool : ServerPool := { backends := [rrCexA, rrCexB], current := 5 }

theorem rr_cyclic_coverage_witness :
    rrCalls rrWitPool 2 =
      (List.range 2).map (fun i => rrWitPool.backends[(rrWitPool.current + i) % 2]?) ∧
    (∀ i j, i < 2 → j < 2 →
      (rrWitPool.current + i) % 2 = (rrWitPool.current + j) % 2 → i = j) ∧
    (∀ j, j < 2 → ∃ i, i < 2 ∧ (rrWitPool.current + i) % 2 = j) :=
  rr_cyclic_coverage rrWitPool 2 (by decide) (by decide) (by decide) (by decide)

/-- Alive-backend filter at the head of
`WeightedRoundRobinBalancer.GetNextValidPeer`. -/
def aliveBackends (bs : List Backend) : List Backend :=
  bs.filter (fun b => b.alive)

/-- `totalAliveWeight`: sum of the weights of the alive backends. -/
def totalAliveWeight (bs : List Backend) : Nat :=
  ((aliveBackends bs).map (fun b => b.weight)).sum

/-- The cumulative-weight walk of the weighted selection: `current`
accumulates weights and the first backend with
`selected < current` wins. -/
def weightedWalk : List Backend → Nat → Nat → Option Backend
  | [], _, _ => none
  | b :: rest, sel, current =>
    let current1 := current + b.weight
    if sel < current1 then some b else weightedWalk rest sel current1

/-- `WeightedRoundRobinBalancer.GetNextValidPeer`, with the random
draw made explicit: `draw` stands for
`rand.Intn(len(aliveBackends))` when the total alive weight is zero
and for `rand.Intn(totalAliveWeight)` otherwise.  The final
`aliveBackends[0]` fallback of the source is kept although the walk
always hits with an in-range draw. -/
def wrrSelect (bs : List Backend) (draw : Nat) : Option Backend :=
  if bs.isEmpty then none
  else if (aliveBackends bs).isEmpty then none
  else if totalAliveWeight bs = 0 then (aliveBackends bs)[draw]?
  else
    match weightedWalk (aliveBackends bs) draw 0 with
    | some b => some b
    | none => (aliveBackends bs)[0]?

/-- Index of the alive backend the cumulative walk selects, as a
function of the alive backends' weights; used to state which draws
select which backend. -/
def walkIndex : List Nat → Nat → Option Nat
  | [], _ => none
  | w :: ws, sel =>
    if sel < w then some 0 else (walkIndex ws (sel - w)).map (· + 1)

/-- Sum of the first `i` weights (cumulative weight before index `i`). -/
def cumWeight (ws : List Nat) (i : Nat) : Nat := (ws.take i).sum

theorem weightedWalk_shift (l : List Backend) :
    ∀ (sel cur k : Nat), weightedWalk l (sel + k) (cur + k) = weightedWalk l sel cur := by
  induction l with
  | nil => intro sel cur k; rfl
  | cons b rest ih =>
    intro sel cur k
    simp only [weightedWalk]
    have harith : cur + k + b.weight = cur + b.weight + k := by omega
    rw [harith]
    by_cases h : sel < cur + b.weight
    · rw [if_pos (by omega), if_pos h]
    · rw [if_neg (by omega), if_neg h]
      exact ih sel (cur + b.weight) k

theorem weightedWalk_walkIndex (l : List Backend) :
    ∀ sel : Nat,
      weightedWalk l sel 0 =
        (walkIndex (l.map (fun b => b.weight)) sel).bind (fun i => l[i]?) := by
  induction l with
  | nil => intro sel; rfl
  | cons b rest ih =>
    intro sel
    by_cases h : sel < b.weight
    · simp [weightedWalk, walkIndex, h]
    · have hshift := weightedWalk_shift rest (sel - b.weight) 0 b.weight
      have hsel : sel - b.weight + b.weight = sel := by omega
      rw [Nat.zero_add, hsel] at hshift
      simp only [weightedWalk, walkIndex, List.map_cons, Nat.zero_add, if_neg h]
      rw [hshift, ih (sel - b.weight)]
      cases hw : walkIndex (rest.map (fun c => c.weight)) (sel - b.weight) with
      | none => rfl
      | some i => simp

theorem walkIndex_eq_some_iff (ws : List Nat) :
    ∀ (sel i : Nat),
      walkIndex ws sel = some i ↔
        i < ws.length ∧ cumWeight ws i ≤ sel ∧ sel < cumWeight ws (i + 1) := by
  induction ws with
  | nil => intro sel i; simp [walkIndex]
  | cons w ws ih =>
    intro sel i
    have hcumS : ∀ j, cumWeight (w :: ws) (j + 1) = w + cumWeight ws j := by
      intro j; simp [cumWeight, List.take_succ_cons]
    have hcum0 : cumWeight (w :: ws) 0 = 0 := rfl
    have hws0 : cumWeight ws 0 = 0 := rfl
    simp only [walkIndex]
    by_cases h : sel < w
    · rw [if_pos h]
      cases i with
      | zero =>
        have h1 := hcumS 0
        constructor
        · intro _; exact ⟨by simp, by omega, by omega⟩
        · intro _; rfl
      | succ j =>
        have h1 := hcumS j
        constructor
        · intro hcontra; simp at hcontra
        · intro hrhs
          exact absurd hrhs.2.1 (by omega)
    · rw [if_neg h]
      cases i with
      | zero =>
        have h1 := hcumS 0
        constructor
        · intro hcontra
          rcases Option.map_eq_some'.mp hcontra with ⟨j, _, hj⟩
          omega
        · intro hrhs
          exact absurd hrhs.2.2 (by omega)
      | succ j =>
        have h1 := hcumS (j + 1)
        have h2 := hcumS j
        constructor
        · intro hmap
          rcases Option.map_eq_some'.mp hmap with ⟨j2, hj2, heq⟩
          have hjj : j2 = j := by omega
          subst hjj
          rcases (ih (sel - w) j2).mp hj2 with ⟨hlen, hle, hlt⟩
          refine ⟨by simpa using Nat.succ_lt_succ hlen, by omega, by omega⟩
        · intro hrhs
          rcases hrhs with ⟨hlen, hle, hlt⟩
          have hj : walkIndex ws (sel - w) = some j :=
            (ih (sel - w) j).mpr ⟨by simpa using hlen, by omega, by omega⟩
          rw [hj]; rfl

theorem walkIndex_isSome (ws : List Nat) :
    ∀ sel : Nat, sel < ws.sum → (walkIndex ws sel).isSome = true := by
  induction ws with
  | nil => intro sel h; simp at h
  | cons w ws ih =>
    intro sel h
    simp only [walkIndex]
    by_cases hlt : sel < w
    · rw [if_pos hlt]; rfl
    · rw [if_neg hlt]
      have : sel - w < ws.sum := by simp [List.sum_cons] at h; omega
      rcases Option.isSome_iff_exists.mp (ih (sel - w) this) with ⟨j, hj⟩
      rw [hj]; rfl

theorem cumWeight_le_sum (ws : List Nat) (i : Nat) : cumWeight ws i ≤ ws.sum := by
  have := List.sum_take_add_sum_drop ws i
  unfold cumWeight
  omega

theorem cumWeight_succ_get (ws : List Nat) (i : Nat) (w : Nat)
    (hw : ws[i]? = some w) : cumWeight ws (i + 1) = cumWeight ws i + w := by
  unfold cumWeight
  rw [List.take_succ, hw]
  simp

theorem filter_range_window (a b : Nat) :
    ∀ T : Nat, ((List.range T).filter (fun d => decide (a ≤ d ∧ d < b))).length =
      min b T - min a T := by
  intro T
  induction T with
  | zero => simp
  | succ n ih =>
    rw [List.range_succ, List.filter_append, List.length_append, ih]
    by_cases h : a ≤ n ∧ n < b
    · have hd : (List.filter (fun d => decide (a ≤ d ∧ d < b)) [n]).length = 1 := by
        simp [List.filter_cons, h]
      rw [hd]
      omega
    · have hd : (List.filter (fun d => decide (a ≤ d ∧ d < b)) [n]).length = 0 := by
        simp [List.filter_cons, h]
      rw [hd]
      omega

/-- C3.  `WeightedRoundRobinBalancer.GetNextValidPeer`: absent when no
backend is alive; with zero total alive weight the draw picks
uniformly among the alive backends; with total weight `T > 0` the
draw `d < T` selects exactly the first alive backend whose cumulative
weight exceeds `d`, so the alive backend at position `i` with weight
`w` is selected for exactly `w` of the `T` draws and a weight-zero
alive backend is never selected. -/
theorem wrr_select_spec (bs : List Backend) :
    (aliveBackends bs = [] → ∀ d, wrrSelect bs d = none) ∧
    (totalAliveWeight bs = 0 → ∀ d, d < (aliveBackends bs).length →
      wrrSelect bs d = (aliveBackends bs)[d]?) ∧
    (0 < totalAliveWeight bs → ∀ d, d < totalAliveWeight bs →
      wrrSelect bs d =
        (walkIndex ((aliveBackends bs).map (fun b => b.weight)) d).bind
          (fun i => (aliveBackends bs)[i]?)) ∧
    (0 < totalAliveWeight bs → ∀ i w,
      ((aliveBackends bs).map (fun b => b.weight))[i]? = some w →
      ((List.range (totalAliveWeight bs)).filter
        (fun d => walkIndex ((aliveBackends bs).map (fun b => b.weight)) d = some i)).length
        = w) ∧
    (0 < totalAliveWeight bs → ∀ i,
      ((aliveBackends bs).map (fun b => b.weight))[i]? = some 0 →
      ∀ d, d < totalAliveWeight bs →
        walkIndex ((aliveBackends bs).map (fun b => b.weight)) d ≠ some i) := by
  have hsum : totalAliveWeight bs = ((aliveBackends bs).map (fun b => b.weight)).sum := rfl
  refine ⟨?_, ?_, ?_, ?_, ?_⟩
  · intro halive d
    unfold wrrSelect
    by_cases hbs : bs.isEmpty
    · rw [if_pos hbs]
    · rw [if_neg hbs, if_pos (by simp [halive])]
  · intro hT d _
    unfold wrrSelect
    by_cases hbs : bs.isEmpty
    · rw [if_pos hbs]
      have hb : bs = [] := by
        cases hx : bs with
        | nil => rfl
        | cons a l => rw [hx] at hbs; simp at hbs
      rw [hb]
      rfl
    · rw [if_neg hbs]
      by_cases hal : (aliveBackends bs).isEmpty
      · have hb : aliveBackends bs = [] := by
          cases hx : aliveBackends bs with
          | nil => rfl
          | cons a l => rw [hx] at hal; simp at hal
        rw [if_pos hal, hb]
        rfl
      · rw [if_neg hal, if_pos hT]
  · intro hT d hd
    have hal : ¬(aliveBackends bs).isEmpty = true := by
      intro hab
      have hb : aliveBackends bs = [] := by
        cases hx : aliveBackends bs with
        | nil => rfl
        | cons a l => rw [hx] at hab; simp at hab
      rw [hsum, hb] at hT
      simp at hT
    have hne : ¬bs.isEmpty = true := by
      intro hbs
      have hb : bs = [] := by
        cases hx : bs with
        | nil => rfl
        | cons a l => rw [hx] at hbs; simp at hbs
      apply hal
      rw [hb]
      rfl
    unfold wrrSelect
    rw [if_neg hne, if_neg hal, if_neg (by omega)]
    have hwalk := weightedWalk_walkIndex (aliveBackends bs) d
    have hd2 : d < ((aliveBackends bs).map (fun b => b.weight)).sum := by
      rw [← hsum]; exact hd
    have hsome := walkIndex_isSome ((aliveBackends bs).map (fun b => b.weight)) d hd2
    rcases Option.isSome_iff_exists.mp hsome with ⟨i, hi⟩
    rw [hwalk, hi]
    have hlt : i < (aliveBackends bs).length := by
      rcases (walkIndex_eq_some_iff _ d i).mp hi with ⟨hlen, _, _⟩
      simpa using hlen
    obtain ⟨c, hc⟩ : ∃ c, (aliveBackends bs)[i]? = some c := by
      rcases h : (aliveBackends bs)[i]? with _ | c
      · rw [List.getElem?_eq_none_iff] at h; omega
      · exact ⟨c, rfl⟩
    simp [hc]
  · intro hT i w hw
    set ws := (aliveBackends bs).map (fun b => b.weight) with hws
    have hlen : i < ws.length := by
      rcases List.getElem?_eq_some_iff.mp hw with ⟨h, _⟩
      exact h
    calc ((List.range (totalAliveWeight bs)).filter (fun d => walkIndex ws d = some i)).length
        = ((List.range (totalAliveWeight bs)).filter
            (fun d => decide (cumWeight ws i ≤ d ∧ d < cumWeight ws (i + 1)))).length := by
          congr 1
          apply List.filter_congr
          intro d hd
          rw [decide_eq_decide]
          rw [walkIndex_eq_some_iff ws d i]
          constructor
          · intro hc; exact ⟨hc.2.1, hc.2.2⟩
          · intro hc; exact ⟨hlen, hc.1, hc.2⟩
      _ = w := by
          rw [filter_range_window]
          have hle : cumWeight ws (i + 1) ≤ totalAliveWeight bs := by
            rw [hsum]
            exact cumWeight_le_sum ws (i + 1)
          have hsucc : cumWeight ws (i + 1) = cumWeight ws i + w :=
            cumWeight_succ_get ws i w hw
          omega
  · intro hT i hw d hd hcontra
    rcases (walkIndex_eq_some_iff _ d i).mp hcontra with ⟨hlen, hle, hlt⟩
    have hsucc : cumWeight ((aliveBackends bs).map (fun b => b.weight)) (i + 1) =
        cumWeight ((aliveBackends bs).map (fun b => b.weight)) i + 0 :=
      cumWeight_succ_get _ i 0 hw
    omega

def wrrDemoA : Backend :=
  { id := 0, url := "http://localhost:9091", path := "", alive := true,
    weight := 2, currentConnections := 0 }

def wrrDemoB : Backend :=
  { id := 1, url := "http://localhost:9092", path := "", alive := true,
    weight := 0, currentConnections := 0 }

def wrrDemoC : Backend :=
  { id := 2, url := "http://localhost:9093", path := "", alive := false,
    weight := 5, currentConnections := 0 }

def wrrDemoD : Backend :=
  { id := 3, url := "http://localhost:9094", path := "", alive := true,
    weight := 1, currentConnections := 0 }

def wrrDemoPool : List Backend := [wrrDemoA, wrrDemoB, wrrDemoC, wrrDemoD]

theorem wrr_select_spec_witness :
    ((List.range (totalAliveWeight wrrDemoPool)).filter
      (fun d => walkIndex ((aliveBackends wrrDemoPool).map (fun b => b.weight)) d
        = some 0)).length = 2 :=
  (wrr_select_spec wrrDemoPool).2.2.2.1 (by decide) 0 2 (by decide)

/-- A sticky session (`proxy.Session`): the bound backend's identity
plus creation and last-use instants (`time.Time` modelled as natural
numbers of nanoseconds). -/
structure Session where
  backendId : Nat
  createdAt : Nat
  lastUsed : Nat
deriving Repr, DecidableEq

/-- First-hit lookup in the session map `map[string]*Session`,
modelled as an association list whose keys are unique. -/
def mapFind : List (String × Session) → String → Option Session
  | [], _ => none
  | e :: rest, k => if e.1 = k then some e.2 else mapFind rest k

/-- Go map insertion: bind the key, dropping any previous binding so
keys stay unique. -/
def mapSet (m : List (String × Session)) (k : String) (s : Session) :
    List (String × Session) :=
  (k, s) :: m.filter (fun e => !(e.1 == k))

/-- Whole-system state: the server pool plus the session manager's
map.  A session references its bound backend through the stable id,
so `session.Backend.IsAlive()` is modelled as a pool lookup by id
(pool backends carry distinct ids). -/
structure System where
  pool : ServerPool
  sessions : List (String × Session)
deriving Repr, DecidableEq

/-- Pool lookup by the stable backend identifier (the pointer
identity of `*models.Backend` in the source). -/
def getBackendById : List Backend → Nat → Option Backend
  | [], _ => none
  | b :: rest, i => if b.id = i then some b else getBackendById rest i

/-- The request data `SessionManager.GetBackendForRequest` consults:
the `proxy_session` cookie value when the request carries one, and
the client IP as computed by `extractClientIP`. -/
structure Request where
  cookie : Option String
  ip : String
deriving Repr, DecidableEq

/-- Cookie branch of `GetBackendForRequest`: a usable hit needs a
non-empty cookie value, a session under it, freshness
(`time.Since(lastUsed) < sessionTTL`) and a currently-alive bound
backend; any failure falls through. -/
def cookieSessionHit (sys : System) (req : Request) (now ttl : Nat) :
    Option (String × Session × Backend) :=
  match req.cookie with
  | some v =>
    if v = "" then none
    else
      match mapFind sys.sessions v with
      | some s =>
        if now - s.lastUsed < ttl then
          match getBackendById sys.pool.backends s.backendId with
          | some b => if b.alive then some (v, s, b) else none
          | none => none
        else none
      | none => none
  | none => none

/-- `SessionManager.GetBackendForRequest`: try the cookie-keyed
session, then the IP-keyed fallback under the same freshness and
liveness conditions, refreshing `lastUsed` on a hit; otherwise
absent so the caller picks a fresh backend via the balancer. -/
def getBackendForRequest (sys : System) (req : Request) (now ttl : Nat) :
    Option Backend × System :=
  match cookieSessionHit sys req now ttl with
  | some (v, s, b) =>
    (some b, { sys with sessions := mapSet sys.sessions v { s with lastUsed := now } })
  | none =>
    match mapFind sys.sessions req.ip with
    | some s =>
      if now - s.lastUsed < ttl then
        match getBackendById sys.pool.backends s.backendId with
        | some b =>
          if b.alive then
            (some b,
             { sys with sessions := mapSet sys.sessions req.ip { s with lastUsed := now } })
          else (none, sys)
        | none => (none, sys)
      else (none, sys)
    | none => (none, sys)

/-- `SessionManager.SetSession`: store the session under the freshly
generated cookie key and under the IP fallback key (the cookie
write to the response is not part of the routed state). -/
def setSession (sys : System) (req : Request) (key : String) (b : Backend) (now : Nat) :
    System :=
  let s : Session := { backendId := b.id, createdAt := now, lastUsed := now }
  { sys with sessions := mapSet (mapSet sys.sessions key s) req.ip s }

/-- `SessionManager.ClearSessionForBackend`: delete every session
whose bound backend has the given backend's id. -/
def clearSessionForBackend (sys : System) (b : Backend) : System :=
  { sys with sessions := sys.sessions.filter (fun e => !(e.2.backendId == b.id)) }

theorem cookieSessionHit_some (sys : System) (req : Request) (now ttl : Nat)
    (v : String) (s : Session) (b : Backend)
    (h : cookieSessionHit sys req now ttl = some (v, s, b)) :
    req.cookie = some v ∧ v ≠ "" ∧ mapFind sys.sessions v = some s ∧
      now - s.lastUsed < ttl ∧
      getBackendById sys.pool.backends s.backendId = some b ∧ b.alive = true := by
  unfold cookieSessionHit at h
  cases hc : req.cookie with
  | none => rw [hc] at h; simp at h
  | some v0 =>
    rw [hc] at h
    simp only [] at h
    by_cases hv : v0 = ""
    · rw [if_pos hv] at h; simp at h
    · rw [if_neg hv] at h
      cases hf : mapFind sys.sessions v0 with
      | none => rw [hf] at h; simp at h
      | some s0 =>
        rw [hf] at h
        simp only [] at h
        by_cases ht : now - s0.lastUsed < ttl
        · rw [if_pos ht] at h
          cases hg : getBackendById sys.pool.backends s0.backendId with
          | none => rw [hg] at h; simp at h
          | some b0 =>
            rw [hg] at h
            simp only [] at h
            by_cases hb : b0.alive = true
            · rw [if_pos hb] at h
              simp only [Option.some.injEq, Prod.mk.injEq] at h
              obtain ⟨hveq, hseq, hbeq⟩ := h
              subst hveq; subst hseq; subst hbeq
              exact ⟨rfl, hv, hf, ht, hg, hb⟩
            · rw [if_neg hb] at h; simp at h
        · rw [if_neg ht] at h; simp at h

def ttl30min : Nat := 1800000000000

def time29min : Nat := 1740000000000

def time31min : Nat := 1860000000000

def stickyDemoBackend : Backend :=
  { id := 7, url := "http://localhost:9095", path := "", alive := true,
    weight := 1, currentConnections := 0 }

/-- System with one alive backend and a session bound to it created
at instant 0, stored under both the cookie key and the IP key as
`SetSession` leaves it. -/
def stickyDemoSys : System :=
  { pool := { backends := [stickyDemoBackend], current := 0 },
    sessions :=
      [("ck", { backendId := 7, createdAt := 0, lastUsed := 0 }),
       ("10.0.0.1", { backendId := 7, createdAt := 0, lastUsed := 0 })] }

def stickyDemoReq : Request := { cookie := some "ck", ip := "10.0.0.1" }

/-- C5.  `SessionManager.GetBackendForRequest` returns a backend only
when a session found under the cookie key (non-empty value) or the
client-IP fallback key is fresh (`now - lastUsed < sessionTTL`) and
its bound backend is currently alive; in every other case it returns
absent.  With the default 30-minute TTL, reuse 29 minutes after
`lastUsed` returns the bound backend and reuse at 31 minutes returns
absent. -/
theorem session_lookup_spec :
    (∀ (sys : System) (req : Request) (now ttl : Nat) (b : Backend),
      (getBackendForRequest sys req now ttl).1 = some b →
        b.alive = true ∧
        ∃ key s, ((req.cookie = some key ∧ key ≠ "") ∨ key = req.ip) ∧
          mapFind sys.sessions key = some s ∧ now - s.lastUsed < ttl ∧
          getBackendById sys.pool.backends s.backendId = some b) ∧
    (getBackendForRequest stickyDemoSys stickyDemoReq time29min ttl30min).1
      = some stickyDemoBackend ∧
    (getBackendForRequest stickyDemoSys stickyDemoReq time31min ttl30min).1 = none := by
  refine ⟨?_, by decide, by decide⟩
  intro sys req now ttl b h
  unfold getBackendForRequest at h
  cases hck : cookieSessionHit sys req now ttl with
  | some t =>
    obtain ⟨v, s, b0⟩ := t
    rw [hck] at h
    simp only [] at h
    have hbb : b0 = b := by simpa using h
    obtain ⟨hc, hv, hf, ht, hg, hb⟩ := cookieSessionHit_some sys req now ttl v s b0 hck
    rw [← hbb]
    exact ⟨hb, v, s, Or.inl ⟨hc, hv⟩, hf, ht, hg⟩
  | none =>
    rw [hck] at h
    simp only [] at h
    cases hf : mapFind sys.sessions req.ip with
    | none => rw [hf] at h; simp at h
    | some s =>
      rw [hf] at h
      simp only [] at h
      by_cases ht : now - s.lastUsed < ttl
      · rw [if_pos ht] at h
        cases hg : getBackendById sys.pool.backends s.backendId with
        | none => rw [hg] at h; simp at h
        | some b0 =>
          rw [hg] at h
          simp only [] at h
          by_cases hb : b0.alive = true
          · rw [if_pos hb] at h
            simp only [] at h
            have hbb : b0 = b := by simpa using h
            rw [← hbb]
            exact ⟨hb, req.ip, s, Or.inr rfl, hf, ht, hg⟩
          · rw [if_neg hb] at h; simp at h
      · rw [if_neg ht] at h; simp at h

theorem session_lookup_spec_witness :
    stickyDemoBackend.alive = true ∧
    ∃ key s, ((stickyDemoReq.cookie = some key ∧ key ≠ "") ∨ key = stickyDemoReq.ip) ∧
      mapFind stickyDemoSys.sessions key = some s ∧
      time29min - s.lastUsed < ttl30min ∧
      getBackendById stickyDemoSys.pool.backends s.backendId = some stickyDemoBackend :=
  session_lookup_spec.1 stickyDemoSys stickyDemoReq time29min ttl30min
    stickyDemoBackend (by decide)

/-- Outcome written to the client: a forwarded response tagged with
the serving backend's URL, the structured 503 for "no backend
available" paths, or the 502 the default error handler of the retry
proxy produces. -/
inductive Response where
  | ok (servedBy : String)
  | serviceUnavailable
  | badGateway
deriving Repr, DecidableEq

/-- Result of one `ProxyHandler.ServeHTTP` run: the system state, the
client-visible response and the number of backend forward attempts
performed. -/
structure ServeResult where
  sys : System
  response : Response
  attempts : Nat
deriving Repr, DecidableEq

/-- Wrap of Go's `int64` arithmetic: `atomic.AddInt64` stores its
result modulo `2^64`, represented in `[-2^63, 2^63)`. -/
def wrap64 (x : Int) : Int := (x + 2 ^ 63) % 2 ^ 64 - 2 ^ 63

theorem wrap64_id (c : Int) (h1 : -(2 ^ 63) ≤ c) (h2 : c < 2 ^ 63) : wrap64 c = c := by
  unfold wrap64
  have h3 : (2 : Int) ^ 63 = 9223372036854775808 := by norm_num
  have h4 : (2 : Int) ^ 64 = 18446744073709551616 := by norm_num
  rw [h3, h4]
  rw [h3] at h1 h2
  omega

theorem wrap64_cancel (c : Int) (h1 : -(2 ^ 63) ≤ c) (h2 : c < 2 ^ 63) :
    wrap64 (wrap64 (c + 1) + (-1)) = c := by
  unfold wrap64
  have h3 : (2 : Int) ^ 63 = 9223372036854775808 := by norm_num
  have h4 : (2 : Int) ^ 64 = 18446744073709551616 := by norm_num
  rw [h3, h4]
  rw [h3] at h1 h2
  omega

/-- `Backend.IncrementConnections` / `DecrementConnections` applied
through the selected backend's pointer, identified by the stable id;
`atomic.AddInt64` wraps the `int64` counter. -/
def updateConnById (bs : List Backend) (i : Nat) (delta : Int) : List Backend :=
  bs.map (fun b =>
    if b.id = i
    then { b with currentConnections := wrap64 (b.currentConnections + delta) } else b)

def incConn (sys : System) (i : Nat) : System :=
  { sys with pool := { sys.pool with backends := updateConnById sys.pool.backends i 1 } }

def decConn (sys : System) (i : Nat) : System :=
  { sys with pool := { sys.pool with backends := updateConnById sys.pool.backends i (-1) } }

/-- The forward step of `ProxyHandler.ServeHTTP` together with its
`ErrorHandler`: `fw` tells, per backend id, whether forwarding
succeeds.  On failure the handler marks the backend dead through
`SetBackendStatus`, clears its sticky sessions when enabled, asks the
balancer for one replacement, binds a fresh session to it when
sticky, and forwards once more; the retry proxy has no error handler
of its own, so its failure surfaces as the default bad-gateway
response. -/
def forwardPhase (sticky : Bool) (sys : System) (req : Request) (now : Nat)
    (retryKey : String) (fw : Nat → Bool) (b : Backend) : System × Response × Nat :=
  if fw b.id then (sys, Response.ok b.url, 1)
  else
    let sys1 : System := { sys with pool := setBackendStatus sys.pool b.url false }
    let sys2 := if sticky then clearSessionForBackend sys1 b else sys1
    let pick := getNextValidPeer sys2.pool
    let sys3 : System := { sys2 with pool := pick.2 }
    match pick.1 with
    | none => (sys3, Response.serviceUnavailable, 1)
    | some b2 =>
      let sys4 := if sticky then setSession sys3 req retryKey b2 now else sys3
      if fw b2.id then (sys4, Response.ok b2.url, 2) else (sys4, Response.badGateway, 2)

/-- Tail of `ServeHTTP` once a backend is selected: increment its
connection counter, forward (with failover), and decrement the
counter on the way out (the deferred `DecrementConnections`). -/
def serveWith (sticky : Bool) (sys : System) (req : Request) (now : Nat)
    (retryKey : String) (fw : Nat → Bool) (b : Backend) : ServeResult :=
  let sysInc := incConn sys b.id
  let fwd := forwardPhase sticky sysInc req now retryKey fw b
  { sys := decConn fwd.1 b.id, response := fwd.2.1, attempts := fwd.2.2 }

/-- `ProxyHandler.ServeHTTP`: sticky-session lookup first when
enabled; otherwise ask the balancer, answering the structured 503
when it has no alive backend; a fresh balancer pick is bound as a new
sticky session; then forward with the scoped counter pairing.
`freshKey` and `retryKey` stand for the two session ids
`generateSessionID` would hash. -/
def serveHTTP (sticky : Bool) (sys : System) (req : Request) (now ttl : Nat)
    (freshKey retryKey : String) (fw : Nat → Bool) : ServeResult :=
  let sessionPick := if sticky then getBackendForRequest sys req now ttl else (none, sys)
  match sessionPick.1 with
  | some b => serveWith sticky sessionPick.2 req now retryKey fw b
  | none =>
    let pick := getNextValidPeer sessionPick.2.pool
    let sys1 : System := { sessionPick.2 with pool := pick.2 }
    match pick.1 with
    | none => { sys := sys1, response := Response.serviceUnavailable, attempts := 0 }
    | some b =>
      let sys2 := if sticky then setSession sys1 req freshKey b now else sys1
      serveWith sticky sys2 req now retryKey fw b

def connsOf (bs : List Backend) : List Int := bs.map (fun b => b.currentConnections)

def idsOf (bs : List Backend) : List Nat := bs.map (fun b => b.id)

theorem updateConnById_ids (bs : List Backend) (i : Nat) (d : Int) :
    idsOf (updateConnById bs i d) = idsOf bs := by
  induction bs with
  | nil => rfl
  | cons b rest ih =>
    simp only [updateConnById, idsOf, List.map_cons] at *
    by_cases h : b.id = i <;> simp [h, ih]

theorem updateConnById_conns (bs : List Backend) (i : Nat) (d : Int) :
    connsOf (updateConnById bs i d) =
      List.zipWith (fun n c => if n = i then wrap64 (c + d) else c)
        (idsOf bs) (connsOf bs) := by
  induction bs with
  | nil => rfl
  | cons b rest ih =>
    simp only [updateConnById, connsOf, idsOf, List.map_cons, List.zipWith_cons_cons] at *
    by_cases h : b.id = i <;> simp [h, ih]

theorem setAliveByURL_ids (bs : List Backend) (u : String) (al : Bool) :
    idsOf (setAliveByURL bs u al) = idsOf bs := by
  induction bs with
  | nil => rfl
  | cons b rest ih =>
    simp only [setAliveByURL]
    by_cases h : b.url = u
    · rw [if_pos h]; simp [idsOf]
    · rw [if_neg h]
      simp only [idsOf, List.map_cons] at *
      rw [ih]

theorem setAliveByURL_conns (bs : List Backend) (u : String) (al : Bool) :
    connsOf (setAliveByURL bs u al) = connsOf bs := by
  induction bs with
  | nil => rfl
  | cons b rest ih =>
    simp only [setAliveByURL]
    by_cases h : b.url = u
    · rw [if_pos h]; simp [connsOf]
    · rw [if_neg h]
      simp only [connsOf, List.map_cons] at *
      rw [ih]

theorem getNextValidPeer_backends (sp : ServerPool) :
    (getNextValidPeer sp).2.backends = sp.backends := by
  unfold getNextValidPeer
  by_cases h : sp.backends.isEmpty
  · rw [if_pos h]
  · rw [if_neg h]

theorem getBackendForRequest_pool (sys : System) (req : Request) (now ttl : Nat) :
    (getBackendForRequest sys req now ttl).2.pool = sys.pool := by
  unfold getBackendForRequest
  split
  · rfl
  · split
    · split
      · split
        · split
          · rfl
          · rfl
        · rfl
      · rfl
    · rfl

theorem setSession_pool (sys : System) (req : Request) (key : String) (b : Backend)
    (now : Nat) : (setSession sys req key b now).pool = sys.pool := rfl

theorem clearSessionForBackend_pool (sys : System) (b : Backend) :
    (clearSessionForBackend sys b).pool = sys.pool := rfl

theorem forwardPhase_pool (sticky : Bool) (sys : System) (req : Request) (now : Nat)
    (retryKey : String) (fw : Nat → Bool) (b : Backend) :
    idsOf (forwardPhase sticky sys req now retryKey fw b).1.pool.backends
        = idsOf sys.pool.backends ∧
    connsOf (forwardPhase sticky sys req now retryKey fw b).1.pool.backends
        = connsOf sys.pool.backends := by
  unfold forwardPhase
  split
  · exact ⟨rfl, rfl⟩
  · simp only []
    repeat' split
    all_goals constructor
    all_goals
      simp only [setSession_pool, clearSessionForBackend_pool, getNextValidPeer_backends,
        setBackendStatus]
    all_goals
      first
        | exact setAliveByURL_ids _ _ _
        | exact setAliveByURL_conns _ _ _

theorem zip_cancel (i : Nat) :
    ∀ (ids : List Nat) (cs : List Int), ids.length = cs.length →
      (∀ c ∈ cs, -(2 ^ 63) ≤ c ∧ c < 2 ^ 63) →
      List.zipWith (fun n c => if n = i then wrap64 (c + (-1 : Int)) else c) ids
        (List.zipWith (fun n c => if n = i then wrap64 (c + (1 : Int)) else c) ids cs)
        = cs := by
  intro ids
  induction ids with
  | nil =>
    intro cs hlen _
    cases cs with
    | nil => rfl
    | cons c rest => simp at hlen
  | cons n ns ih =>
    intro cs hlen hrange
    cases cs with
    | nil => simp at hlen
    | cons c rest =>
      simp only [List.zipWith_cons_cons]
      rw [ih rest (by simpa using hlen)
        (fun c2 hc2 => hrange c2 (List.mem_cons_of_mem c hc2))]
      obtain ⟨hc1, hc2⟩ := hrange c (List.mem_cons_self c rest)
      by_cases h : n = i
      · simp only [if_pos h]
        rw [wrap64_cancel c hc1 hc2]
      · simp only [if_neg h]

theorem connsOf_length (bs : List Backend) : (idsOf bs).length = (connsOf bs).length := by
  simp [idsOf, connsOf]

theorem serveWith_profile (sticky : Bool) (sys : System) (req : Request) (now : Nat)
    (retryKey : String) (fw : Nat → Bool) (b : Backend) (bs0 : List Backend)
    (hbs : sys.pool.backends = bs0)
    (hrange : ∀ c ∈ connsOf bs0, -(2 ^ 63) ≤ c ∧ c < 2 ^ 63) :
    connsOf (serveWith sticky sys req now retryKey fw b).sys.pool.backends
        = connsOf bs0 ∧
    idsOf (serveWith sticky sys req now retryKey fw b).sys.pool.backends
        = idsOf bs0 := by
  obtain ⟨hids, hconns⟩ := forwardPhase_pool sticky (incConn sys b.id) req now retryKey fw b
  have hidsInc : idsOf (incConn sys b.id).pool.backends = idsOf sys.pool.backends :=
    updateConnById_ids _ _ _
  have hconnsInc : connsOf (incConn sys b.id).pool.backends =
      List.zipWith (fun n c => if n = b.id then wrap64 (c + (1 : Int)) else c)
        (idsOf sys.pool.backends) (connsOf sys.pool.backends) :=
    updateConnById_conns _ _ _
  unfold serveWith
  constructor
  · show connsOf (updateConnById
        (forwardPhase sticky (incConn sys b.id) req now retryKey fw b).1.pool.backends
        b.id (-1)) = connsOf bs0
    rw [updateConnById_conns, hids, hidsInc, hconns, hconnsInc, hbs]
    exact zip_cancel b.id _ _ (connsOf_length bs0) hrange
  · show idsOf (updateConnById
        (forwardPhase sticky (incConn sys b.id) req now retryKey fw b).1.pool.backends
        b.id (-1)) = idsOf bs0
    rw [updateConnById_ids, hids, hidsInc, hbs]

theorem serveHTTP_conns (sticky : Bool) (sys : System) (req : Request) (now ttl : Nat)
    (freshKey retryKey : String) (fw : Nat → Bool)
    (hrange : ∀ c ∈ connsOf sys.pool.backends, -(2 ^ 63) ≤ c ∧ c < 2 ^ 63) :
    connsOf (serveHTTP sticky sys req now ttl freshKey retryKey fw).sys.pool.backends
      = connsOf sys.pool.backends := by
  unfold serveHTTP
  have hpool0 : (if sticky then getBackendForRequest sys req now ttl
      else (none, sys)).2.pool = sys.pool := by
    by_cases hst : sticky
    · rw [if_pos hst]; exact getBackendForRequest_pool sys req now ttl
    · rw [if_neg hst]
  rcases hsess : (if sticky then getBackendForRequest sys req now ttl
      else (none, sys)).1 with _ | b
  · simp only [hsess]
    rcases hpick : (getNextValidPeer (if sticky then getBackendForRequest sys req now ttl
        else (none, sys)).2.pool).1 with _ | b2
    · simp only [hpick]
      show connsOf (getNextValidPeer (if sticky then getBackendForRequest sys req now ttl
          else (none, sys)).2.pool).2.backends = connsOf sys.pool.backends
      rw [getNextValidPeer_backends, hpool0]
    · simp only [hpick]
      by_cases hst : sticky
      all_goals simp only [hst, if_true, Bool.false_eq_true, if_false]
      · refine (serveWith_profile true _ req now retryKey fw b2
          sys.pool.backends ?_ hrange).1
        show (setSession _ req freshKey b2 now).pool.backends = _
        rw [setSession_pool]
        show (getNextValidPeer (getBackendForRequest sys req now ttl).2.pool).2.backends
          = sys.pool.backends
        rw [getNextValidPeer_backends, getBackendForRequest_pool]
      · refine (serveWith_profile false _ req now retryKey fw b2
          sys.pool.backends ?_ hrange).1
        show (getNextValidPeer (sys.pool)).2.backends = sys.pool.backends
        rw [getNextValidPeer_backends]
  · simp only [hsess]
    refine (serveWith_profile sticky _ req now retryKey fw b
      sys.pool.backends ?_ hrange).1
    show (if sticky then getBackendForRequest sys req now ttl
        else (none, sys)).2.pool.backends = sys.pool.backends
    rw [hpool0]

theorem connsOf_updateConn_map (bs : List Backend) (i : Nat) (d : Int) :
    connsOf (updateConnById bs i d) =
      bs.map (fun b => if b.id = i then wrap64 (b.currentConnections + d)
        else b.currentConnections) := by
  induction bs with
  | nil => rfl
  | cons b rest ih =>
    simp only [updateConnById, connsOf, List.map_cons] at *
    by_cases h : b.id = i <;> simp [h, ih]

def cexConnBackend : Backend :=
  { id := 90, url := "http://localhost:9099", path := "", alive := true,
    weight := 1, currentConnections := 9223372036854775807 }

def cexConnSys : System :=
  { pool := { backends := [cexConnBackend], current := 0 }, sessions := [] }

/-- C4 counterexample.  The connection counter is an `int64` updated
by `atomic.AddInt64`, which wraps modulo `2^64`: with the selected
backend's counter at the int64 maximum `2^63 - 1` (a nonnegative
value), the dispatch increment performed by the handler wraps it to
`-2^63`, so the claim that the counter never becomes negative is
false as stated. -/
theorem conn_counter_counterexample :
    (0 ≤ cexConnBackend.currentConnections) ∧
    connsOf (incConn cexConnSys cexConnBackend.id).pool.backends
      = [(-9223372036854775808 : Int)] ∧
    ¬ (0 ≤ (-9223372036854775808 : Int)) := by
  refine ⟨by decide, by decide, by decide⟩

/-- C4 amended.  The connection counter is an `int64` wrapped by
`atomic.AddInt64`: across one `ProxyHandler.ServeHTTP` run the
handler increments the selected backend's counter by exactly one
(modulo `2^64`) at dispatch and the deferred decrement runs once at
completion on every exit path (success, forwarding failure, failover
retry, no-backend 503), so every in-range (int64) counter balances
back exactly to its prior value; counters stay nonnegative at
dispatch and at completion provided each starts in `[0, 2^63 - 1)` —
at the int64 maximum the dispatch increment itself wraps negative,
as the counterexample shows. -/
theorem conn_counter_balance (sticky : Bool) (sys : System) (req : Request)
    (now ttl : Nat) (freshKey retryKey : String) (fw : Nat → Bool) :
    ((∀ c ∈ connsOf sys.pool.backends, -(2 ^ 63) ≤ c ∧ c < 2 ^ 63) →
      connsOf (serveHTTP sticky sys req now ttl freshKey retryKey fw).sys.pool.backends
        = connsOf sys.pool.backends) ∧
    (∀ i, connsOf (incConn sys i).pool.backends
      = sys.pool.backends.map
          (fun b => if b.id = i then wrap64 (b.currentConnections + 1)
            else b.currentConnections)) ∧
    ((∀ b ∈ sys.pool.backends,
        0 ≤ b.currentConnections ∧ b.currentConnections + 1 < 2 ^ 63) →
      (∀ i, ∀ b2 ∈ (incConn sys i).pool.backends, 0 ≤ b2.currentConnections) ∧
      (∀ b2 ∈ (serveHTTP sticky sys req now ttl freshKey retryKey fw).sys.pool.backends,
        0 ≤ b2.currentConnections)) := by
  refine ⟨serveHTTP_conns sticky sys req now ttl freshKey retryKey fw, ?_, ?_⟩
  · intro i
    exact connsOf_updateConn_map sys.pool.backends i 1
  · intro hnn
    have hK : (2 : Int) ^ 63 = 9223372036854775808 := by norm_num
    have hrange : ∀ c ∈ connsOf sys.pool.backends, -(2 ^ 63) ≤ c ∧ c < 2 ^ 63 := by
      intro c hc
      unfold connsOf at hc
      rcases List.mem_map.mp hc with ⟨b0, hb0, heq⟩
      obtain ⟨h1, h2⟩ := hnn b0 hb0
      rw [← heq, hK]
      rw [hK] at h2
      omega
    constructor
    · intro i b2 hb2
      have hb2m : b2 ∈ sys.pool.backends.map
          (fun b => if b.id = i
            then { b with currentConnections := wrap64 (b.currentConnections + 1) }
            else b) := hb2
      rcases List.mem_map.mp hb2m with ⟨b0, hb0, heq⟩
      obtain ⟨h0, h1⟩ := hnn b0 hb0
      by_cases h : b0.id = i
      · rw [if_pos h] at heq
        rw [← heq]
        show 0 ≤ wrap64 (b0.currentConnections + 1)
        rw [wrap64_id (b0.currentConnections + 1) (by rw [hK] at *; omega) h1]
        omega
      · rw [if_neg h] at heq
        rw [← heq]
        exact h0
    · intro b2 hb2
      have hmem : b2.currentConnections ∈ connsOf
          (serveHTTP sticky sys req now ttl freshKey retryKey fw).sys.pool.backends := by
        unfold connsOf
        exact List.mem_map_of_mem _ hb2
      rw [serveHTTP_conns sticky sys req now ttl freshKey retryKey fw hrange] at hmem
      unfold connsOf at hmem
      rcases List.mem_map.mp hmem with ⟨b0, hb0, heq⟩
      rw [← heq]
      exact (hnn b0 hb0).1

def handlerDemoB1 : Backend :=
  { id := 100, url := "http://localhost:8082", path := "", alive := true,
    weight := 1, currentConnections := 0 }

def handlerDemoB2 : Backend :=
  { id := 101, url := "http://localhost:8083", path := "", alive := true,
    weight := 1, currentConnections := 0 }

def handlerDemoSys : System :=
  { pool := { backends := [handlerDemoB1, handlerDemoB2], current := 0 }, sessions := [] }

def handlerDemoReq : Request := { cookie := none, ip := "10.0.0.9" }

theorem conn_counter_balance_witness :
    connsOf (serveHTTP true handlerDemoSys handlerDemoReq 5 30 "key1" "key2"
        (fun _ => false)).sys.pool.backends
      = connsOf handlerDemoSys.pool.backends :=
  (conn_counter_balance true handlerDemoSys handlerDemoReq 5 30 "key1" "key2"
    (fun _ => false)).1 (by decide)

theorem getBackendByURL_setAlive (bs : List Backend) (u : String) (al : Bool) :
    getBackendByURL (setAliveByURL bs u al) u =
      (getBackendByURL bs u).map (fun c => { c with alive := al }) := by
  induction bs with
  | nil => rfl
  | cons b rest ih =>
    simp only [setAliveByURL]
    by_cases h : b.url = u <;> simp [getBackendByURL, h, ih]

theorem getNextValidPeer_some (sp : ServerPool) (b : Backend)
    (h : (getNextValidPeer sp).1 = some b) : b ∈ sp.backends ∧ b.alive = true := by
  unfold getNextValidPeer at h
  by_cases he : sp.backends.isEmpty
  · rw [if_pos he] at h; simp at h
  · rw [if_neg he] at h
    simp only [] at h
    obtain ⟨k, _, hidx, hal, _⟩ := rrLoop_some sp.backends sp.backends.length sp.current b h
    refine ⟨?_, hal⟩
    rcases List.getElem?_eq_some_iff.mp hidx with ⟨hlt, hget⟩
    exact hget ▸ List.getElem_mem hlt

theorem setAlive_id_dead (bs : List Backend) (b : Backend) :
    b ∈ bs → (bs.map (fun x => x.url)).Nodup → (bs.map (fun x => x.id)).Nodup →
    ∀ b2 ∈ setAliveByURL bs b.url false, b2.id = b.id → b2.alive = false := by
  induction bs with
  | nil => intro h; simp at h
  | cons c rest ih =>
    intro hmem hurls hids b2 hb2 hid
    simp only [List.map_cons, List.nodup_cons] at hurls hids
    obtain ⟨hcu, hurls2⟩ := hurls
    obtain ⟨hci, hids2⟩ := hids
    simp only [setAliveByURL] at hb2
    by_cases h : c.url = b.url
    · rw [if_pos h] at hb2
      rcases List.mem_cons.mp hb2 with heq | hb2r
      · rw [heq]
      · rcases List.mem_cons.mp hmem with hbc | hbr
        · exfalso
          apply hci
          have hmm : b2.id ∈ rest.map (fun x => x.id) := List.mem_map_of_mem _ hb2r
          rw [hid, hbc] at hmm
          exact hmm
        · exfalso
          apply hcu
          have hmm : b.url ∈ rest.map (fun x => x.url) := List.mem_map_of_mem _ hbr
          rw [← h] at hmm
          exact hmm
    · rw [if_neg h] at hb2
      rcases List.mem_cons.mp hb2 with heq | hb2r
      · exfalso
        rcases List.mem_cons.mp hmem with hbc | hbr
        · exact h (by rw [hbc])
        · apply hci
          have hmm : b.id ∈ rest.map (fun x => x.id) := List.mem_map_of_mem _ hbr
          rw [← hid, heq] at hmm
          exact hmm
      · rcases List.mem_cons.mp hmem with hbc | hbr
        · exact absurd (by rw [hbc] : c.url = b.url) h
        · exact ih hbr hurls2 hids2 b2 hb2r hid

theorem mem_mapSet (m : List (String × Session)) (k : String) (s : Session)
    (e : String × Session) (h : e ∈ mapSet m k s) : e = (k, s) ∨ e ∈ m := by
  unfold mapSet at h
  rcases List.mem_cons.mp h with heq | hf
  · exact Or.inl heq
  · exact Or.inr (List.mem_of_mem_filter hf)

theorem mem_setSession (sys : System) (req : Request) (key : String) (b2 : Backend)
    (now : Nat) (e : String × Session)
    (he : e ∈ (setSession sys req key b2 now).sessions) :
    e.2.backendId = b2.id ∨ e ∈ sys.sessions := by
  unfold setSession at he
  simp only [] at he
  rcases mem_mapSet _ _ _ _ he with heq | h1
  · left; rw [heq]
  · rcases mem_mapSet _ _ _ _ h1 with heq | h2
    · left; rw [heq]
    · right; exact h2

theorem clearSessionForBackend_sessions (sys : System) (b : Backend) :
    ∀ e ∈ (clearSessionForBackend sys b).sessions, e.2.backendId ≠ b.id := by
  intro e he
  unfold clearSessionForBackend at he
  simp only [] at he
  have hp := List.of_mem_filter he
  simpa using hp

theorem forwardPhase_fail_backends (sticky : Bool) (sys : System) (req : Request)
    (now : Nat) (retryKey : String) (fw : Nat → Bool) (b : Backend)
    (hfw : fw b.id = false) :
    (forwardPhase sticky sys req now retryKey fw b).1.pool.backends
      = setAliveByURL sys.pool.backends b.url false := by
  unfold forwardPhase
  rw [if_neg (by simp [hfw])]
  simp only []
  repeat' split
  all_goals
    simp only [setSession_pool, clearSessionForBackend_pool, getNextValidPeer_backends,
      setBackendStatus]

theorem forwardPhase_fail_outcome (sticky : Bool) (sys : System) (req : Request)
    (now : Nat) (retryKey : String) (fw : Nat → Bool) (b : Backend)
    (hfw : fw b.id = false) :
    ((forwardPhase sticky sys req now retryKey fw b).2.2 = 1 ∧
      (forwardPhase sticky sys req now retryKey fw b).2.1 = Response.serviceUnavailable) ∨
    ((forwardPhase sticky sys req now retryKey fw b).2.2 = 2 ∧
      ∃ b2 : Backend, b2.alive = true ∧
        ((forwardPhase sticky sys req now retryKey fw b).2.1 = Response.ok b2.url ∨
         (forwardPhase sticky sys req now retryKey fw b).2.1 = Response.badGateway)) := by
  unfold forwardPhase
  rw [if_neg (by simp [hfw])]
  simp only []
  have hpool2 : (if sticky = true
      then clearSessionForBackend
        ({ sys with pool := setBackendStatus sys.pool b.url false } : System) b
      else ({ sys with pool := setBackendStatus sys.pool b.url false } : System)).pool
      = setBackendStatus sys.pool b.url false := by
    by_cases hst : sticky = true
    · rw [if_pos hst]; rfl
    · rw [if_neg hst]
  rw [hpool2]
  rcases hpick : (getNextValidPeer (setBackendStatus sys.pool b.url false)).1 with _ | b2
  · exact Or.inl ⟨rfl, rfl⟩
  · obtain ⟨_, hal⟩ := getNextValidPeer_some _ _ hpick
    by_cases hfw2 : fw b2.id = true
    · refine Or.inr ⟨?_, ⟨b2, hal, Or.inl ?_⟩⟩
      · simp only [if_pos hfw2]
      · simp only [if_pos hfw2]
    · refine Or.inr ⟨?_, ⟨b2, hal, Or.inr ?_⟩⟩
      · simp only [if_neg hfw2]
      · simp only [if_neg hfw2]

theorem forwardPhase_fail_sessions (sys : System) (req : Request) (now : Nat)
    (retryKey : String) (fw : Nat → Bool) (b : Backend)
    (hfw : fw b.id = false)
    (hmem : b ∈ sys.pool.backends)
    (hurls : (sys.pool.backends.map (fun x => x.url)).Nodup)
    (hids : (sys.pool.backends.map (fun x => x.id)).Nodup) :
    ∀ e ∈ (forwardPhase true sys req now retryKey fw b).1.sessions,
      e.2.backendId ≠ b.id := by
  intro e he
  unfold forwardPhase at he
  rw [if_neg (by simp [hfw])] at he
  simp only [eq_self_iff_true, if_true, clearSessionForBackend_pool] at he
  rcases hpick : (getNextValidPeer (setBackendStatus sys.pool b.url false)).1 with _ | b2
  · rw [hpick] at he
    simp only [] at he
    exact clearSessionForBackend_sessions _ b e he
  · rw [hpick] at he
    have hb2 := getNextValidPeer_some _ _ hpick
    have hb2ne : b2.id ≠ b.id := by
      intro hcontra
      have hdead : b2.alive = false :=
        setAlive_id_dead sys.pool.backends b hmem hurls hids b2 hb2.1 hcontra
      rw [hb2.2] at hdead
      simp at hdead
    have hfin : ∀ m : List (String × Session),
        (∀ e2 ∈ m, e2.2.backendId ≠ b.id) →
        e ∈ (setSession ({ pool := (getNextValidPeer (setBackendStatus sys.pool
              b.url false)).2, sessions := m } : System) req retryKey b2 now).sessions →
        e.2.backendId ≠ b.id := by
      intro m hm hee
      rcases mem_setSession _ _ _ _ _ _ hee with hb2id | hcl
      · intro hcontra
        rw [hcontra] at hb2id
        exact hb2ne hb2id.symm
      · exact hm e hcl
    simp only [] at he
    by_cases hfw2 : fw b2.id = true
    · rw [if_pos hfw2] at he
      exact hfin _ (clearSessionForBackend_sessions _ b) he
    · rw [if_neg hfw2] at he
      exact hfin _ (clearSessionForBackend_sessions _ b) he

theorem forwardPhase_attempts (sticky : Bool) (sys : System) (req : Request) (now : Nat)
    (retryKey : String) (fw : Nat → Bool) (b : Backend) :
    (forwardPhase sticky sys req now retryKey fw b).2.2 ≤ 2 := by
  unfold forwardPhase
  split
  · exact one_le_two
  · simp only []
    repeat' split
    all_goals
      first
        | exact Nat.le_refl 2
        | exact one_le_two

theorem serveWith_attempts (sticky : Bool) (sys : System) (req : Request) (now : Nat)
    (retryKey : String) (fw : Nat → Bool) (b : Backend) :
    (serveWith sticky sys req now retryKey fw b).attempts
      = (forwardPhase sticky (incConn sys b.id) req now retryKey fw b).2.2 := rfl

theorem serveHTTP_attempts (sticky : Bool) (sys : System) (req : Request) (now ttl : Nat)
    (freshKey retryKey : String) (fw : Nat → Bool) :
    (serveHTTP sticky sys req now ttl freshKey retryKey fw).attempts ≤ 2 := by
  unfold serveHTTP
  simp only []
  rcases hsess : (if sticky = true then getBackendForRequest sys req now ttl
      else (none, sys)).1 with _ | b
  · rcases hpick : (getNextValidPeer (if sticky = true
        then getBackendForRequest sys req now ttl else (none, sys)).2.pool).1 with _ | b2
    · exact Nat.zero_le 2
    · rw [serveWith_attempts]
      exact forwardPhase_attempts _ _ _ _ _ _ _
  · rw [serveWith_attempts]
    exact forwardPhase_attempts _ _ _ _ _ _ _

/-- C6.  On a forwarding failure the handler marks the failed backend
dead through `SetBackendStatus` (the pool entry under its URL turns
not-alive), removes the sticky sessions bound to it, asks the
balancer for exactly one alive replacement and retries exactly once:
the outcome is either the 503 when no replacement exists (one
attempt) or a second and final attempt whose failure surfaces as the
default bad-gateway response — every request makes at most two
backend attempts. -/
theorem failover_single_retry :
    (∀ (sticky : Bool) (sys : System) (req : Request) (now ttl : Nat)
        (freshKey retryKey : String) (fw : Nat → Bool),
      (serveHTTP sticky sys req now ttl freshKey retryKey fw).attempts ≤ 2) ∧
    (∀ (sticky : Bool) (sys : System) (req : Request) (now : Nat) (retryKey : String)
        (fw : Nat → Bool) (b : Backend), fw b.id = false →
      ∀ c, getBackendByURL sys.pool.backends b.url = some c →
        getBackendByURL (forwardPhase sticky sys req now retryKey fw b).1.pool.backends
          b.url = some { c with alive := false }) ∧
    (∀ (sys : System) (req : Request) (now : Nat) (retryKey : String)
        (fw : Nat → Bool) (b : Backend), fw b.id = false →
      b ∈ sys.pool.backends →
      (sys.pool.backends.map (fun x => x.url)).Nodup →
      (sys.pool.backends.map (fun x => x.id)).Nodup →
      ∀ e ∈ (forwardPhase true sys req now retryKey fw b).1.sessions,
        e.2.backendId ≠ b.id) ∧
    (∀ (sticky : Bool) (sys : System) (req : Request) (now : Nat) (retryKey : String)
        (fw : Nat → Bool) (b : Backend), fw b.id = false →
      ((forwardPhase sticky sys req now retryKey fw b).2.2 = 1 ∧
        (forwardPhase sticky sys req now retryKey fw b).2.1
          = Response.serviceUnavailable) ∨
      ((forwardPhase sticky sys req now retryKey fw b).2.2 = 2 ∧
        ∃ b2 : Backend, b2.alive = true ∧
          ((forwardPhase sticky sys req now retryKey fw b).2.1 = Response.ok b2.url ∨
           (forwardPhase sticky sys req now retryKey fw b).2.1
             = Response.badGateway))) := by
  refine ⟨serveHTTP_attempts, ?_, forwardPhase_fail_sessions, forwardPhase_fail_outcome⟩
  intro sticky sys req now retryKey fw b hfw c hc
  rw [forwardPhase_fail_backends sticky sys req now retryKey fw b hfw]
  rw [getBackendByURL_setAlive, hc]
  rfl

theorem failover_single_retry_witness :
    getBackendByURL (forwardPhase false handlerDemoSys handlerDemoReq 0 "rk"
        (fun _ => false) handlerDemoB1).1.pool.backends handlerDemoB1.url
      = some { handlerDemoB1 with alive := false } :=
  failover_single_retry.2.1 false handlerDemoSys handlerDemoReq 0 "rk"
    (fun _ => false) handlerDemoB1 (by decide) handlerDemoB1 (by decide)

/-- Probe verdict of `HealthCheck`: alive exactly when the HTTP GET
returned without transport error (`err == nil`) with a status code
below 500. -/
def probeAlive : Option Nat → Bool
  | none => false
  | some code => decide (code < 500)

/-- `RoundRobinBalancer.HealthCheck` acting on the pool: the verdict
goes through `SetBackendStatus` under the backend's URL string. -/
def healthCheckApply (sp : ServerPool) (b : Backend) (probe : Option Nat) : ServerPool :=
  setBackendStatus sp b.url (probeAlive probe)

/-- The health-check step at system level: the checker holds only the
balancer, so the pool is updated through `SetBackendStatus` while the
session map is untouched — the `HealthChecker` has no reference to
the `SessionManager`. -/
def healthCheckSystem (sys : System) (b : Backend) (probe : Option Nat) : System :=
  { sys with pool := healthCheckApply sys.pool b probe }

def c7Backend : Backend :=
  { id := 50, url := "http://localhost:9096", path := "", alive := true,
    weight := 1, currentConnections := 0 }

def c7Session : Session := { backendId := 50, createdAt := 0, lastUsed := 0 }

def c7Sys : System :=
  { pool := { backends := [c7Backend], current := 0 },
    sessions := [("sess", c7Session)] }

/-- C7 counterexample.  When the health checker marks a backend dead
through `SetBackendStatus`, the session bound to it stays in the
session map: after a failed probe the backend's pool entry is dead
yet the bound session is still found under its key, so the claim
that every caller of `SetBackendStatus` removes the bound sessions
immediately is false. -/
theorem session_invalidation_counterexample :
    getBackendByURL (healthCheckSystem c7Sys c7Backend none).pool.backends
        c7Backend.url = some { c7Backend with alive := false } ∧
    mapFind (healthCheckSystem c7Sys c7Backend none).sessions "sess" = some c7Session := by
  constructor <;> decide

/-- C7 amended.  Sessions bound to a dead backend are removed
immediately only on the ProxyHandler forwarding-failure path, which
calls `ClearSessionForBackend` after `SetBackendStatus`:
`ClearSessionForBackend` removes exactly the sessions bound to the
given backend, keeps every other session and leaves the pool alone,
while the health checker's `SetBackendStatus` path never touches the
session map (dead-backend sessions are merely unusable on lookup). -/
theorem session_invalidation_amended :
    (∀ (sys : System) (b : Backend),
      (∀ e ∈ (clearSessionForBackend sys b).sessions, e.2.backendId ≠ b.id) ∧
      (∀ e ∈ sys.sessions, e.2.backendId ≠ b.id →
        e ∈ (clearSessionForBackend sys b).sessions) ∧
      (clearSessionForBackend sys b).pool = sys.pool) ∧
    (∀ (sys : System) (b : Backend) (probe : Option Nat),
      (healthCheckSystem sys b probe).sessions = sys.sessions) := by
  refine ⟨?_, fun sys b probe => rfl⟩
  intro sys b
  refine ⟨clearSessionForBackend_sessions sys b, ?_, rfl⟩
  intro e he hne
  unfold clearSessionForBackend
  simp only []
  refine List.mem_filter.mpr ⟨he, ?_⟩
  simpa using hne

def c7OtherSession : Session := { backendId := 51, createdAt := 0, lastUsed := 0 }

def c7Sys2 : System :=
  { pool := { backends := [c7Backend], current := 0 },
    sessions := [("sess", c7Session), ("other", c7OtherSession)] }

theorem session_invalidation_amended_witness :
    ("other", c7OtherSession) ∈ (clearSessionForBackend c7Sys2 c7Backend).sessions :=
  (session_invalidation_amended.1 c7Sys2 c7Backend).2.1
    ("other", c7OtherSession) (by decide) (by decide)

/-- Number of backends in the list whose URL string equals `u`. -/
def countURL (bs : List Backend) (u : String) : Nat :=
  (bs.filter (fun b => b.url == u)).length

theorem countURL_cons (b : Backend) (bs : List Backend) (u : String) :
    countURL (b :: bs) u = (if b.url = u then 1 else 0) + countURL bs u := by
  by_cases h : b.url = u <;> simp [countURL, List.filter_cons, h, Nat.add_comm]

theorem removeFirstByURL_spec (u : String) :
    ∀ bs : List Backend,
      (countURL bs u = 0 → removeFirstByURL bs u = (bs, false)) ∧
      (0 < countURL bs u → (removeFirstByURL bs u).2 = true ∧
        countURL (removeFirstByURL bs u).1 u = countURL bs u - 1) := by
  intro bs
  induction bs with
  | nil =>
    refine ⟨fun _ => rfl, fun h => ?_⟩
    simp [countURL] at h
  | cons b rest ih =>
    constructor
    · intro h0
      rw [countURL_cons] at h0
      by_cases hbu : b.url = u
      · rw [if_pos hbu] at h0; omega
      · rw [if_neg hbu] at h0
        simp only [removeFirstByURL, if_neg hbu]
        rw [ih.1 (by omega)]
    · intro hpos
      by_cases hbu : b.url = u
      · simp only [removeFirstByURL, if_pos hbu]
        refine ⟨by trivial, ?_⟩
        rw [countURL_cons, if_pos hbu]
        omega
      · rw [countURL_cons, if_neg hbu] at hpos
        simp only [removeFirstByURL, if_neg hbu]
        obtain ⟨hr, hc⟩ := ih.2 (by omega)
        refine ⟨hr, ?_⟩
        rw [countURL_cons, if_neg hbu, hc, countURL_cons, if_neg hbu]
        omega

def dupA : Backend :=
  { id := 60, url := "http://localhost:7777", path := "", alive := true,
    weight := 1, currentConnections := 0 }

def dupB : Backend :=
  { id := 61, url := "http://localhost:7777", path := "", alive := true,
    weight := 1, currentConnections := 0 }

/-- Pool holding two distinct backends that share one URL string
(nothing in `AddBackend` or the admin API prevents this). -/
def dupPool : ServerPool := { backends := [dupA, dupB], current := 0 }

/-- C8 counterexample.  On a pool with a duplicated URL, removing the
same URL twice returns true both times, so the claim that the second
removal always returns false is wrong as stated. -/
theorem remove_backend_counterexample :
    countURL dupPool.backends "http://localhost:7777" = 2 ∧
    (dupPool.removeBackend "http://localhost:7777").2 = true ∧
    (((dupPool.removeBackend "http://localhost:7777").1).removeBackend
        "http://localhost:7777").2 = true := by
  refine ⟨by decide, by decide, by decide⟩

/-- C8 amended.  `ServerPool.RemoveBackend` matches by exact URL
string and unlinks only the first match: with no matching backend it
returns false and leaves the pool unchanged (an idempotent no-op on
absence); it returns true exactly when a match exists; and when the
pool holds exactly one backend with the URL, removing twice returns
true then false. -/
theorem remove_backend_amended (sp : ServerPool) (u : String) :
    (countURL sp.backends u = 0 →
      (sp.removeBackend u).2 = false ∧ (sp.removeBackend u).1 = sp) ∧
    ((sp.removeBackend u).2 = true ↔ 0 < countURL sp.backends u) ∧
    (countURL sp.backends u = 1 →
      (sp.removeBackend u).2 = true ∧
      (((sp.removeBackend u).1).removeBackend u).2 = false) := by
  have hspec := removeFirstByURL_spec u sp.backends
  refine ⟨?_, ?_, ?_⟩
  · intro h0
    unfold ServerPool.removeBackend
    simp only []
    rw [hspec.1 h0]
    exact ⟨rfl, rfl⟩
  · constructor
    · intro htrue
      by_contra hc
      have h0 : countURL sp.backends u = 0 := by omega
      have := hspec.1 h0
      have hfalse : (removeFirstByURL sp.backends u).2 = false := by rw [this]
      have : (sp.removeBackend u).2 = false := hfalse
      rw [htrue] at this
      simp at this
    · intro hpos
      exact (hspec.2 hpos).1
  · intro h1
    obtain ⟨hr, hc⟩ := hspec.2 (by omega)
    refine ⟨hr, ?_⟩
    have hcount0 : countURL (sp.removeBackend u).1.backends u = 0 := by
      show countURL (removeFirstByURL sp.backends u).1 u = 0
      omega
    have h2 := (removeFirstByURL_spec u (sp.removeBackend u).1.backends).1 hcount0
    show (removeFirstByURL (sp.removeBackend u).1.backends u).2 = false
    rw [h2]

def c8Only : Backend :=
  { id := 70, url := "http://localhost:8089", path := "", alive := true,
    weight := 1, currentConnections := 0 }

def c8Pool : ServerPool := { backends := [c8Only], current := 0 }

theorem remove_backend_amended_witness :
    (c8Pool.removeBackend "http://localhost:8089").2 = true ∧
    ((c8Pool.removeBackend "http://localhost:8089").1.removeBackend
        "http://localhost:8089").2 = false :=
  (remove_backend_amended c8Pool "http://localhost:8089").2.2 (by decide)

/-- `HealthCheck` probe target: `URL.String()` with `/health`
appended, overridden to the root when the URL carries no configured
path. -/
def healthCheckURL (b : Backend) : String :=
  let h := b.url ++ "/health"
  if b.path = "" then b.url ++ "/" else h

/-- Modelled from the spec (the claim's reading, kept only for
comparison with the source's `healthCheckURL`): GET the `/health`
path when the URL does not already carry a configured path, else the
root. -/
def specHealthCheckURL (b : Backend) : String :=
  if b.path = "" then b.url ++ "/health" else b.url ++ "/"

def c9Backend : Backend :=
  { id := 80, url := "http://localhost:9091", path := "", alive := true,
    weight := 1, currentConnections := 0 }

/-- C9 counterexample.  For a backend whose URL has no configured
path the probe GETs the root, not `/health`: the code's branch is
the exact inverse of the claim's. -/
theorem health_probe_counterexample :
    healthCheckURL c9Backend = "http://localhost:9091/" ∧
    specHealthCheckURL c9Backend = "http://localhost:9091/health" ∧
    healthCheckURL c9Backend ≠ specHealthCheckURL c9Backend := by
  refine ⟨rfl, rfl, by decide⟩

/-- C9 amended.  The probe GETs the backend's root when its URL has
no configured path and `URL.String() ++ "/health"` when it does (the
inverse of the claim's direction), and the backend is then marked
alive if and only if the probe returned without transport error with
a status code at most 499. -/
theorem health_probe_amended :
    (∀ b : Backend, b.path = "" → healthCheckURL b = b.url ++ "/") ∧
    (∀ b : Backend, b.path ≠ "" → healthCheckURL b = b.url ++ "/health") ∧
    (∀ r : Option Nat, probeAlive r = true ↔ ∃ c, r = some c ∧ c ≤ 499) ∧
    (∀ (sp : ServerPool) (b : Backend) (probe : Option Nat) (c : Backend),
      getBackendByURL sp.backends b.url = some c →
        getBackendByURL (healthCheckApply sp b probe).backends b.url
          = some { c with alive := probeAlive probe }) := by
  refine ⟨?_, ?_, ?_, ?_⟩
  · intro b h
    unfold healthCheckURL
    rw [if_pos h]
  · intro b h
    unfold healthCheckURL
    rw [if_neg h]
  · intro r
    cases r with
    | none => simp [probeAlive]
    | some c =>
      simp only [probeAlive, decide_eq_true_eq, Option.some.injEq]
      constructor
      · intro h
        exact ⟨c, rfl, by omega⟩
      · intro hex
        obtain ⟨c2, hc2, hle⟩ := hex
        omega
  · intro sp b probe c hc
    show getBackendByURL (setAliveByURL sp.backends b.url (probeAlive probe)) b.url = _
    rw [getBackendByURL_setAlive, hc]
    rfl

theorem health_probe_amended_witness :
    healthCheckURL c9Backend = c9Backend.url ++ "/" :=
  health_probe_amended.1 c9Backend (by decide)

/-- Load-balancing strategy selected at startup. -/
inductive Strategy where
  | roundRobin
  | weighted
deriving Repr, DecidableEq

/-- Strategy switch in `main`: the spellings "weighted" and
"weighted-round-robin" select the weighted balancer; every other
string falls to the default round-robin arm without any error. -/
def chooseBalancer (s : String) : Strategy :=
  if s = "weighted" ∨ s = "weighted-round-robin" then Strategy.weighted
  else Strategy.roundRobin

/-- C10.  Startup never rejects a strategy string: any configuration
value other than the two weighted spellings — misspellings, the
empty string, arbitrary text — silently selects the round-robin
balancer. -/
theorem strategy_default_round_robin (s : String)
    (h1 : s ≠ "weighted") (h2 : s ≠ "weighted-round-robin") :
    chooseBalancer s = Strategy.roundRobin := by
  have hne : ¬(s = "weighted" ∨ s = "weighted-round-robin") := by
    rintro (h | h)
    · exact h1 h
    · exact h2 h
  unfold chooseBalancer
  rw [if_neg hne]

theorem strategy_default_round_robin_witness :
    chooseBalancer "least-connections" = Strategy.roundRobin :=
  strategy_default_round_robin "least-connections" (by decide) (by decide)

end ReverseProxy
